import Mathlib

/-!
Shallow embedding of the statement-construction and result-marshaling engine
of `src/generic/casstcl_cassandra.c`:

* `casstcl_make_upsert_statement` — builds an INSERT (upsert) statement from a
  flat key/value list, with the drop-unknown (`-nocomplain`), map-unknown
  (`-mapunknown`) and if-not-exists policies, then binds values positionally.
* `casstcl_select` — executes a paginated query, marshals each row into the
  caller-visible array and evaluates the caller's per-row body, interpreting
  the Tcl return codes (OK / CONTINUE / BREAK / RETURN / ERROR) as loop
  control.
* `casstcl_list_columns` — lists the columns of a table from schema metadata,
  skipping entries whose `column_name` field is not a varchar.

External collaborators (the type resolver, the scalar value binder, the driver
execution, the validator-to-type translation) are passed in as parameters, so
the embedding is a function of those interfaces exactly as the C code is.
-/

set_option autoImplicit false

/-- CQL value types as far as the embedded code inspects them: the code only
ever compares against `CASS_VALUE_TYPE_UNKNOWN` (the not-found sentinel),
`CASS_VALUE_TYPE_VARCHAR` (the shape check in `casstcl_list_columns`) and uses
`CASS_VALUE_TYPE_TEXT` for the synthetic map; all other members of the C enum
are collapsed into `other`. -/
inductive CassValueType where
  | unknown
  | varchar
  | text
  | other (n : Nat)
  deriving DecidableEq

/-- True exactly for the `CASS_VALUE_TYPE_UNKNOWN` sentinel. -/
def CassValueType.isUnknown : CassValueType → Bool
  | .unknown => true
  | _ => false

/-- True exactly for `CASS_VALUE_TYPE_VARCHAR`. -/
def CassValueType.isVarcharType : CassValueType → Bool
  | .varchar => true
  | _ => false

/-- `casstcl_cassTypeInfo`: a resolved column type with the two optional
subtypes for collections and maps. -/
structure CassTypeInfo where
  cassValueType : CassValueType
  valueSubType1 : CassValueType
  valueSubType2 : CassValueType
  deriving DecidableEq

/-- The type-info value stored for a column the schema does not know: the
primary type is the `Unknown` sentinel. -/
def unknownTI : CassTypeInfo := ⟨.unknown, .unknown, .unknown⟩

/-- Outcome of `casstcl_typename_obj_to_cass_value_types` for one column name:
`TCL_OK` with the resolved type, `TCL_CONTINUE` when the table exists but the
column does not, or `TCL_ERROR` with a message. -/
inductive ResolveResult where
  | found (ti : CassTypeInfo)
  | notFound
  | resolveError (msg : String)
  deriving DecidableEq

/-- True exactly for the `notFound` (`TCL_CONTINUE`) outcome. -/
def ResolveResult.isNotFound : ResolveResult → Bool
  | .notFound => true
  | _ => false

/-- Modelled from the spec: the type resolver
(`casstcl_typename_obj_to_cass_value_types`, which lives outside `src/`)
returns the `Unknown` primary type only as the distinct not-found sentinel;
a successful resolution never carries the `Unknown` primary type
(spec 4.1: "Returns the `Unknown` sentinel (not an error) if the table exists
but the column does not"). -/
def SchemaWF (resolve : String → ResolveResult) : Prop :=
  ∀ s ti, resolve s = ResolveResult.found ti → ti.cassValueType ≠ CassValueType.unknown

/-- One positional bind performed on the statement: either a scalar bind of a
typed value (`casstcl_bind_tcl_obj`) or the bind of a map collection built
with `CASS_COLLECTION_TYPE_MAP` whose elements were appended with the given
element type (`cass_statement_bind_collection`). -/
inductive StmtBind where
  | scalar (pos : Nat) (ti : CassTypeInfo) (value : String)
  | coll (pos : Nat) (elemType : CassValueType) (pairs : List (String × String))
  deriving DecidableEq

/-- The positional slot a bind was made at. -/
def StmtBind.pos : StmtBind → Nat
  | .scalar p _ _ => p
  | .coll p _ _ => p

/-- True when the bind is a scalar bind. -/
def StmtBind.isScalar : StmtBind → Bool
  | .scalar _ _ _ => true
  | .coll _ _ _ => false

/-- The statement produced by `casstcl_make_upsert_statement`: the composed
query string, the parameter count handed to `cass_statement_new`, the
consistency override and the sequence of positional binds performed. -/
structure UpsertStatement where
  query : String
  paramCount : Nat
  consistency : Option Nat
  binds : List StmtBind
  deriving DecidableEq

/-- Pair up a flat Tcl list of alternating keys and values, as the C code
walks it with `for (i = 0; i < listObjc; i += 2)`. -/
def toPairs : List String → List (String × String)
  | a :: b :: rest => (a, b) :: toPairs rest
  | _ => []

/-- Comma-join a list of column names, as the `didOne` logic in the C code
builds the column section of the INSERT. -/
def joinComma : List String → String
  | [] => ""
  | [s] => s
  | s :: rest => s ++ "," ++ joinComma rest

/-- The values section `?`, `?,?`, ... produced by the placeholder loop
`for (i = 0; i < nFields; i++)`. -/
def placeholders : Nat → String
  | 0 => ""
  | 1 => "?"
  | n + 2 => placeholders (n + 1) ++ ",?"

/-- Number of question-mark characters in a string. -/
def countQ (s : String) : Nat := s.data.count '?'

/-- True when a string contains no question mark. -/
def qFree (s : String) : Bool := countQ s == 0

/-- First pass of `casstcl_make_upsert_statement` (the loop at lines 701-747):
resolve each column name, collecting the recognized column names in order,
the per-pair type infos, and the count `nUnknownToMap`.  An unknown column is
dropped when `dropUnknown` is set, otherwise counted for mapping when
`mapUnknown` is set, otherwise it is the "unknown column" error. -/
def upsertPass1 (resolve : String → ResolveResult) (tableName : String)
    (dropUnknown : Bool) (mapUnknown : Option String) :
    List (String × String) → Except String (List String × List CassTypeInfo × Nat)
  | [] => .ok ([], [], 0)
  | (name, _) :: rest =>
    match resolve name with
    | .resolveError msg => .error msg
    | .notFound =>
      if dropUnknown then
        match upsertPass1 resolve tableName dropUnknown mapUnknown rest with
        | .error e => .error e
        | .ok (cols, tis, nu) => .ok (cols, unknownTI :: tis, nu)
      else
        match mapUnknown with
        | some _ =>
          match upsertPass1 resolve tableName dropUnknown mapUnknown rest with
          | .error e => .error e
          | .ok (cols, tis, nu) => .ok (cols, unknownTI :: tis, nu + 1)
        | none =>
          .error ("unknown column \x27" ++ name ++ "\x27 in upsert for table \x27" ++
            tableName ++ "\x27")
    | .found ti =>
      match upsertPass1 resolve tableName dropUnknown mapUnknown rest with
      | .error e => .error e
      | .ok (cols, tis, nu) => .ok (name :: cols, ti :: tis, nu)

/-- `casstcl_cass_value_type_to_string`, restricted to the types the embedding
distinguishes (only used inside the bind-failure error message). -/
def cass_value_type_to_string : CassValueType → String
  | .unknown => "unknown"
  | .varchar => "varchar"
  | .text => "text"
  | .other _ => "other"

/-- Second pass of `casstcl_make_upsert_statement` (the loop at lines 790-809):
walk the pairs again with the cached type infos, skip the pairs whose type is
the `Unknown` sentinel, and scalar-bind the remaining values at consecutive
positions starting from `bindField`.  `bindErr` models
`casstcl_bind_tcl_obj`: `none` is success, `some msg` the conversion error
message.  Returns the binds made and the final `bindField`. -/
def upsertBinds (bindErr : CassTypeInfo → String → Option String)
    (tableName : String) :
    List (String × String) → List CassTypeInfo → Nat →
    Except String (List StmtBind × Nat)
  | [], _, bf => .ok ([], bf)
  | _ :: _, [], bf => .ok ([], bf)
  | (name, value) :: rest, ti :: tis, bf =>
    if ti.cassValueType.isUnknown then
      upsertBinds bindErr tableName rest tis bf
    else
      match bindErr ti value with
      | some e =>
        .error (e ++ " while constructing upsert statement, while attempting to bind field \x27" ++
          name ++ "\x27 of type \x27" ++ cass_value_type_to_string ti.cassValueType ++
          "\x27, value \x27" ++ value ++ "\x27 referencing table \x27" ++ tableName ++ "\x27")
      | none =>
        match upsertBinds bindErr tableName rest tis (bf + 1) with
        | .error e => .error e
        | .ok (bs, bf2) => .ok (StmtBind.scalar bf ti value :: bs, bf2)

/-- The unrecognized name/value pairs, in list order, as collected into the
map collection by the loop at lines 816-837 (the pairs whose cached type is
the `Unknown` sentinel). -/
def unknownPairs : List (String × String) → List CassTypeInfo → List (String × String)
  | [], _ => []
  | _ :: _, [] => []
  | (n, v) :: rest, ti :: tis =>
    if ti.cassValueType.isUnknown then (n, v) :: unknownPairs rest tis
    else unknownPairs rest tis

/-- Number of type infos that are not the `Unknown` sentinel. -/
def knownCount : List CassTypeInfo → Nat
  | [] => 0
  | ti :: tis => (if ti.cassValueType.isUnknown then 0 else 1) + knownCount tis

/-- `casstcl_make_upsert_statement` (lines 670-864): check the key/value list
has even cardinality, resolve every column (`upsertPass1`), compose
`INSERT INTO <table> (<cols>[,<mapcol>]) values (?..)[ IF NOT EXISTS]`, then
bind each recognized value in order (`upsertBinds`) and, when unknowns were
counted for mapping, bind one text/text map collection of all unrecognized
pairs at the final position.  `resolve` and `bindErr` stand for the external
type resolver and scalar binder. -/
def casstcl_make_upsert_statement (resolve : String → ResolveResult)
    (bindErr : CassTypeInfo → String → Option String)
    (tableName : String) (listObjv : List String) (consistency : Option Nat)
    (mapUnknown : Option String) (dropUnknown : Bool) (ifNotExists : Bool) :
    Except String UpsertStatement :=
  if listObjv.length % 2 = 1 then
    .error "key-value pair list must contain an even number of elements"
  else
    match upsertPass1 resolve tableName dropUnknown mapUnknown (toPairs listObjv) with
    | .error e => .error e
    | .ok (cols, tis, nu) =>
      let nFields := cols.length + (if 0 < nu then 1 else 0)
      let allCols := cols ++ (if 0 < nu then [mapUnknown.getD ""] else [])
      let query := "INSERT INTO " ++ tableName ++ " (" ++ joinComma allCols ++
        ") values (" ++ placeholders nFields ++
        (if ifNotExists then ") IF NOT EXISTS" else ")")
      match upsertBinds bindErr tableName (toPairs listObjv) tis 0 with
      | .error e => .error e
      | .ok (binds, bindField) =>
        if 0 < nu then
          .ok ⟨query, nFields, consistency,
            binds ++ [StmtBind.coll bindField CassValueType.text
              (unknownPairs (toPairs listObjv) tis)]⟩
        else
          .ok ⟨query, nFields, consistency, binds⟩

/-- True when some bind of the statement is a collection bind containing the
given name/value pair. -/
def hasCollPair (s : UpsertStatement) (p : String × String) : Bool :=
  s.binds.any fun b =>
    match b with
    | .coll _ _ pairs => pairs.contains p
    | .scalar _ _ _ => false

/-- Tcl return code of the caller's per-row body, as `casstcl_select`
distinguishes them: `TCL_OK`, `TCL_CONTINUE`, `TCL_BREAK`, `TCL_RETURN`, or
`TCL_ERROR` carrying the script line `Tcl_GetErrorLine` reports. -/
inductive EvalOutcome where
  | ok
  | cont
  | brk
  | ret
  | err (line : Nat)
  deriving DecidableEq

/-- One result row as `casstcl_select` observes it: whether marshaling every
column into the Tcl array succeeds (`casstcl_cass_value_to_tcl_obj` and
`Tcl_SetVar2Ex` all succeed), and the outcome of evaluating the caller's body
for this row. -/
structure SelRow where
  marshalOk : Bool
  eval : EvalOutcome
  deriving DecidableEq

/-- Outcome of one `cass_session_execute` + `cass_future_error_code` +
`cass_future_get_result` round: a driver error, a successful future with a
NULL result (the defensive case at lines 180-193), or a page of rows together
with `cass_result_has_more_pages`. -/
inductive ExecResult where
  | execError (msg : String)
  | nullResult
  | page (rows : List SelRow) (hasMore : Bool)
  deriving DecidableEq

/-- The values `tclReturn` takes inside `casstcl_select`: `TCL_OK`,
`TCL_ERROR`, or `TCL_BREAK`. -/
inductive TclCode where
  | ok
  | error
  | brk
  deriving DecidableEq

/-- Observable outcome of `casstcl_select`: final return code (after the
`TCL_BREAK` to `TCL_OK` conversion at lines 273-275), number of times the
caller's body was evaluated, number of `cass_session_execute` calls issued,
the interp result message for execution/null-result failures, and the
`Tcl_AddErrorInfo` decorations appended. -/
structure SelectResult where
  code : TclCode
  cbCount : Nat
  fetches : Nat
  errMsg : Option String
  errorInfo : List String
  deriving DecidableEq

/-- The decoration `casstcl_select` appends via `Tcl_AddErrorInfo` when the
body errors: `sprintf(msg, "\n    (\"select\" body line %d)", line)`. -/
def bodyLineMsg (line : Nat) : String :=
  "\n    (\x22select\x22 body line " ++ toString line ++ ")"

/-- The row loop of `casstcl_select` (lines 202-258) starting with the current
`tclReturn`: marshal each row (a marshal failure sets `tclReturn` to
`TCL_ERROR` but the body is still evaluated and iteration continues), then
evaluate the body; `TCL_OK`/`TCL_CONTINUE` proceed, `TCL_BREAK` sets
`tclReturn` to `TCL_BREAK` and stops, `TCL_ERROR` sets `tclReturn` to
`TCL_ERROR`, appends the body-line decoration and stops, `TCL_RETURN` stops
with `tclReturn` unchanged.  Returns the final `tclReturn`, the number of
body evaluations, and the decorations appended. -/
def processRows : TclCode → List SelRow → TclCode × Nat × List String
  | tr, [] => (tr, 0, [])
  | tr, row :: rest =>
    let tr1 := if row.marshalOk then tr else TclCode.error
    match row.eval with
    | .brk => (.brk, 1, [])
    | .err line => (.error, 1, [bodyLineMsg line])
    | .ret => (tr1, 1, [])
    | .ok =>
      match processRows tr1 rest with
      | (tr2, n, d) => (tr2, n + 1, d)
    | .cont =>
      match processRows tr1 rest with
      | (tr2, n, d) => (tr2, n + 1, d)

/-- The epilogue of `casstcl_select`: free the statement, unset the array,
and convert a `TCL_BREAK` return into `TCL_OK`. -/
def finishSelect (tr : TclCode) (cb fetches : Nat) (msg : Option String)
    (decor : List String) : SelectResult :=
  { code := if tr = TclCode.brk then TclCode.ok else tr,
    cbCount := cb, fetches := fetches, errMsg := msg, errorInfo := decor }

/-- The do-while page loop of `casstcl_select` (lines 169-268), driven by the
successive execution outcomes the driver produces.  Each iteration issues one
execution; a driver error or a NULL result sets `tclReturn` to `TCL_ERROR`
with the corresponding interp message and exits the loop; otherwise the rows
of the page are processed and the loop repeats exactly when
`cass_result_has_more_pages` held and `tclReturn` is still `TCL_OK`. -/
def selectLoop : List ExecResult → TclCode → Nat → Nat → List String → SelectResult
  | [], tr, cb, f, d => finishSelect tr cb f none d
  | e :: rest, tr, cb, f, d =>
    match e with
    | .execError msg => finishSelect TclCode.error cb (f + 1) (some msg) d
    | .nullResult => finishSelect TclCode.error cb (f + 1) (some "future has no result") d
    | .page rows hasMore =>
      match processRows tr rows with
      | (tr2, n, d2) =>
        if hasMore = true ∧ tr2 = TclCode.ok then
          selectLoop rest tr2 (cb + n) (f + 1) (d ++ d2)
        else
          finishSelect tr2 (cb + n) (f + 1) none (d ++ d2)

/-- `casstcl_select` (lines 151-278), abstracted over the driver's successive
execution outcomes (the statement creation, consistency setting and paging
size are external setup producing the executions). -/
def casstcl_select (execs : List ExecResult) : SelectResult :=
  selectLoop execs TclCode.ok 0 0 []

/-- Number of rows in one execution outcome. -/
def pageRows : ExecResult → Nat
  | .page rows _ => rows.length
  | _ => 0

/-- Total number of rows across a list of execution outcomes. -/
def rowsIn (execs : List ExecResult) : Nat := (execs.map pageRows).sum

/-- A row whose marshaling succeeds and whose body evaluation lets iteration
proceed (`TCL_OK` or `TCL_CONTINUE`). -/
def cleanRow (r : SelRow) : Prop :=
  r.marshalOk = true ∧ (r.eval = EvalOutcome.ok ∨ r.eval = EvalOutcome.cont)

/-- A full page: every row clean and more pages reported after it. -/
def cleanPage : ExecResult → Prop
  | .page rows hasMore => (∀ r ∈ rows, cleanRow r) ∧ hasMore = true
  | _ => False

instance cleanRowDec : DecidablePred cleanRow := fun r =>
  decidable_of_iff
    (r.marshalOk = true ∧ (r.eval = EvalOutcome.ok ∨ r.eval = EvalOutcome.cont)) Iff.rfl

instance cleanPageDec : DecidablePred cleanPage := fun e =>
  match e with
  | .execError _ => isFalse fun h => h
  | .nullResult => isFalse fun h => h
  | .page rows hasMore =>
    decidable_of_iff ((∀ r ∈ rows, cleanRow r) ∧ hasMore = true) Iff.rfl

/-- Whether `pat` is an initial segment of `l`. -/
def startsWithList : List Char → List Char → Bool
  | _, [] => true
  | [], _ :: _ => false
  | a :: as, b :: bs => a == b && startsWithList as bs

/-- Whether `sub` occurs as a contiguous segment of `l`. -/
def listHasSub : List Char → List Char → Bool
  | [], sub => sub.isEmpty
  | a :: as, sub => startsWithList (a :: as) sub || listHasSub as sub

/-- Whether `sub` occurs as a contiguous substring of `s`. -/
def containsStr (s sub : String) : Bool := listHasSub s.data sub.data

/-- One column entry of a table's schema metadata as `casstcl_list_columns`
reads it: the value type of the `column_name` field, the column name string,
and the `validator` string. -/
structure ColumnMeta where
  nameType : CassValueType
  name : String
  validator : String
  deriving DecidableEq

/-- `casstcl_list_columns` (the column loop at lines 422-492), for a located
table, abstracted over `v2t` which models `::casstcl::validator_to_type`
(with its cache): entries whose `column_name` field is not a varchar are
skipped; otherwise the name is appended, and with `includeTypes` the
translated validator is appended after it; a translation failure stops the
listing with `TCL_ERROR` and the partial list. -/
def casstcl_list_columns (v2t : String → Except String String)
    (includeTypes : Bool) : List ColumnMeta → TclCode × List String
  | [] => (TclCode.ok, [])
  | c :: rest =>
    if c.nameType.isVarcharType = false then
      casstcl_list_columns v2t includeTypes rest
    else if includeTypes then
      match v2t c.validator with
      | .error _ => (TclCode.error, [c.name])
      | .ok tname =>
        match casstcl_list_columns v2t includeTypes rest with
        | (code, l) => (code, c.name :: tname :: l)
    else
      match casstcl_list_columns v2t includeTypes rest with
      | (code, l) => (code, c.name :: l)

/-- A concrete schema for witnesses: columns `a` (text) and `b` (varchar);
everything else unknown. -/
def resolveT : String → ResolveResult := fun s =>
  if s = "a" then ResolveResult.found ⟨CassValueType.text, CassValueType.unknown, CassValueType.unknown⟩
  else if s = "b" then ResolveResult.found ⟨CassValueType.varchar, CassValueType.unknown, CassValueType.unknown⟩
  else ResolveResult.notFound

/-- A scalar binder for witnesses that always succeeds. -/
def bindOkAll : CassTypeInfo → String → Option String := fun _ _ => none

/-- The statement `casstcl_make_upsert_statement` produces on table `t`, list
`["a","1","x","2"]`, with both `-nocomplain` and `-mapunknown extra` set:
column `x` is dropped and no map column appears. -/
def upsC1 : UpsertStatement :=
  ⟨"INSERT INTO t (a) values (?)", 1, none,
    [StmtBind.scalar 0 ⟨CassValueType.text, CassValueType.unknown, CassValueType.unknown⟩ "1"]⟩

/-- A row whose marshal succeeds and whose body returns `TCL_OK`. -/
def rowOk : SelRow := ⟨true, EvalOutcome.ok⟩

/-- A row whose body returns `TCL_BREAK`. -/
def rowBrk : SelRow := ⟨true, EvalOutcome.brk⟩

/-- A row whose body fails with `TCL_ERROR` at script line 1. -/
def rowErr1 : SelRow := ⟨true, EvalOutcome.err 1⟩

theorem countQ_append (a b : String) : countQ (a ++ b) = countQ a + countQ b := by
  simp [countQ, String.data_append, List.count_append]

theorem countQ_of_qFree {s : String} (h : qFree s = true) : countQ s = 0 := by
  simpa [qFree] using h

theorem countQ_joinComma {l : List String} (h : ∀ s ∈ l, countQ s = 0) :
    countQ (joinComma l) = 0 := by
  induction l with
  | nil => rfl
  | cons s rest ih =>
    cases rest with
    | nil => simpa [joinComma] using h s (by simp)
    | cons t r2 =>
      have hs : countQ s = 0 := h s (by simp)
      have hr : countQ (joinComma (t :: r2)) = 0 := ih (fun x hx => h x (by simp [hx]))
      have hc : countQ "," = 0 := by decide
      calc countQ (joinComma (s :: t :: r2))
          = countQ (s ++ "," ++ joinComma (t :: r2)) := rfl
        _ = countQ s + countQ "," + countQ (joinComma (t :: r2)) := by
            rw [countQ_append, countQ_append]
        _ = 0 := by rw [hs, hr, hc]

theorem countQ_placeholders (n : Nat) : countQ (placeholders n) = n := by
  induction n with
  | zero => rfl
  | succ m ih =>
    cases m with
    | zero => decide
    | succ k =>
      have hq : countQ ",?" = 1 := by decide
      calc countQ (placeholders (k + 2))
          = countQ (placeholders (k + 1) ++ ",?") := rfl
        _ = countQ (placeholders (k + 1)) + countQ ",?" := countQ_append ..
        _ = k + 2 := by rw [ih, hq]

theorem isUnknown_eq_false {t : CassValueType} (h : t ≠ CassValueType.unknown) :
    t.isUnknown = false := by
  cases t <;> simp [CassValueType.isUnknown] at h ⊢

theorem pass1_drop_eq (resolve : String → ResolveResult) (t : String)
    (mu : Option String) (ps : List (String × String)) :
    upsertPass1 resolve t true mu ps = upsertPass1 resolve t true none ps := by
  induction ps with
  | nil => rfl
  | cons p rest ih =>
    obtain ⟨name, v⟩ := p
    simp only [upsertPass1]
    cases resolve name <;> simp [ih]

theorem pass1_drop_nu (resolve : String → ResolveResult) (t : String)
    (mu : Option String) (ps : List (String × String))
    (cols : List String) (tis : List CassTypeInfo) (nu : Nat)
    (h : upsertPass1 resolve t true mu ps = .ok (cols, tis, nu)) : nu = 0 := by
  induction ps generalizing cols tis nu with
  | nil =>
    simp only [upsertPass1] at h
    simp only [Except.ok.injEq, Prod.mk.injEq] at h
    exact h.2.2.symm
  | cons p rest ih =>
    obtain ⟨name, v⟩ := p
    simp only [upsertPass1] at h
    rcases hres : resolve name with ti | _ | msg <;> rw [hres] at h
    · rcases hrec : upsertPass1 resolve t true mu rest with e | ⟨cols2, tis2, nu2⟩ <;>
        rw [hrec] at h
      · simp at h
      · simp at h
        exact h.2.2 ▸ ih cols2 tis2 nu2 hrec
    · simp only [if_true] at h
      rcases hrec : upsertPass1 resolve t true mu rest with e | ⟨cols2, tis2, nu2⟩ <;>
        rw [hrec] at h
      · simp at h
      · simp at h
        exact h.2.2 ▸ ih cols2 tis2 nu2 hrec
    · simp at h

theorem pass1_all_known (resolve : String → ResolveResult) (t : String)
    (d : Bool) (mu : Option String) (ps : List (String × String))
    (hwf : SchemaWF resolve)
    (hknown : ∀ p ∈ ps, ∃ ti, resolve p.1 = ResolveResult.found ti) :
    ∃ tis, upsertPass1 resolve t d mu ps = .ok (ps.map Prod.fst, tis, 0) ∧
      tis.length = ps.length ∧ knownCount tis = ps.length := by
  induction ps with
  | nil => exact ⟨[], rfl, rfl, rfl⟩
  | cons p rest ih =>
    obtain ⟨name, v⟩ := p
    obtain ⟨ti, hti⟩ := hknown (name, v) (by simp)
    obtain ⟨tis, hpass, hlen, hkc⟩ := ih (fun x hx => hknown x (by simp [hx]))
    refine ⟨ti :: tis, ?_, by simp [hlen], ?_⟩
    · simp [upsertPass1, hti, hpass]
    · have hu : ti.cassValueType.isUnknown = false :=
        isUnknown_eq_false (hwf name ti hti)
      simp only [knownCount, hu, Bool.false_eq_true, if_false, List.length_cons]
      omega

theorem pass1_shape (resolve : String → ResolveResult) (t : String)
    (d : Bool) (mu : Option String) (ps : List (String × String))
    (cols : List String) (tis : List CassTypeInfo) (nu : Nat)
    (hwf : SchemaWF resolve)
    (h : upsertPass1 resolve t d mu ps = .ok (cols, tis, nu)) :
    tis.length = ps.length ∧ knownCount tis = cols.length := by
  induction ps generalizing cols tis nu with
  | nil =>
    simp only [upsertPass1, Except.ok.injEq, Prod.mk.injEq] at h
    obtain ⟨h1, h2, _⟩ := h
    subst h1; subst h2
    exact ⟨rfl, rfl⟩
  | cons p rest ih =>
    obtain ⟨name, v⟩ := p
    simp only [upsertPass1] at h
    rcases hres : resolve name with ti | _ | msg <;> rw [hres] at h
    · rcases hrec : upsertPass1 resolve t d mu rest with e | ⟨cols2, tis2, nu2⟩ <;>
        rw [hrec] at h
      · simp at h
      · simp only [Except.ok.injEq, Prod.mk.injEq] at h
        obtain ⟨h1, h2, _⟩ := h
        subst h1; subst h2
        obtain ⟨hl, hk⟩ := ih cols2 tis2 nu2 hrec
        have hu : ti.cassValueType.isUnknown = false :=
          isUnknown_eq_false (hwf name ti hres)
        refine ⟨by simp [hl], ?_⟩
        simp only [knownCount, hu, Bool.false_eq_true, if_false, List.length_cons]
        omega
    · by_cases hd : d = true
      · subst hd
        simp only [if_true] at h
        rcases hrec : upsertPass1 resolve t true mu rest with e | ⟨cols2, tis2, nu2⟩ <;>
          rw [hrec] at h
        · simp at h
        · simp only [Except.ok.injEq, Prod.mk.injEq] at h
          obtain ⟨h1, h2, _⟩ := h
          subst h1; subst h2
          obtain ⟨hl, hk⟩ := ih cols2 tis2 nu2 hrec
          exact ⟨by simp [hl], by simp [knownCount, unknownTI, CassValueType.isUnknown, hk]⟩
      · have hd2 : d = false := by
          cases d
          · rfl
          · exact absurd rfl hd
        subst hd2
        simp only [Bool.false_eq_true, if_false] at h
        rcases mu with _ | m
        · simp at h
        · rcases hrec : upsertPass1 resolve t false (some m) rest with e | ⟨cols2, tis2, nu2⟩ <;>
            rw [hrec] at h
          · simp at h
          · simp only [Except.ok.injEq, Prod.mk.injEq] at h
            obtain ⟨h1, h2, _⟩ := h
            subst h1; subst h2
            obtain ⟨hl, hk⟩ := ih cols2 tis2 nu2 hrec
            exact ⟨by simp [hl], by simp [knownCount, unknownTI, CassValueType.isUnknown, hk]⟩
    · simp at h

theorem pass1_map_unknowns (resolve : String → ResolveResult) (t m : String)
    (ps : List (String × String))
    (cols : List String) (tis : List CassTypeInfo) (nu : Nat)
    (hwf : SchemaWF resolve)
    (h : upsertPass1 resolve t false (some m) ps = .ok (cols, tis, nu)) :
    nu = ps.countP (fun p => (resolve p.1).isNotFound) ∧
    unknownPairs ps tis = ps.filter (fun p => (resolve p.1).isNotFound) := by
  induction ps generalizing cols tis nu with
  | nil =>
    simp only [upsertPass1, Except.ok.injEq, Prod.mk.injEq] at h
    obtain ⟨_, h2, h3⟩ := h
    subst h2; subst h3
    simp [unknownPairs]
  | cons p rest ih =>
    obtain ⟨name, v⟩ := p
    simp only [upsertPass1] at h
    rcases hres : resolve name with ti | _ | msg <;> rw [hres] at h
    · rcases hrec : upsertPass1 resolve t false (some m) rest with e | ⟨cols2, tis2, nu2⟩ <;>
        rw [hrec] at h
      · simp at h
      · simp only [Except.ok.injEq, Prod.mk.injEq] at h
        obtain ⟨_, h2, h3⟩ := h
        subst h2; subst h3
        obtain ⟨hnu, hup⟩ := ih cols2 tis2 nu2 hrec
        have hu : ti.cassValueType.isUnknown = false :=
          isUnknown_eq_false (hwf name ti hres)
        constructor
        · simpa [List.countP_cons, hres, ResolveResult.isNotFound] using hnu
        · simp [unknownPairs, hu, List.filter_cons, hres, ResolveResult.isNotFound, hup]
    · simp only [Bool.false_eq_true, if_false] at h
      rcases hrec : upsertPass1 resolve t false (some m) rest with e | ⟨cols2, tis2, nu2⟩ <;>
        rw [hrec] at h
      · simp at h
      · simp only [Except.ok.injEq, Prod.mk.injEq] at h
        obtain ⟨_, h2, h3⟩ := h
        subst h2; subst h3
        obtain ⟨hnu, hup⟩ := ih cols2 tis2 nu2 hrec
        constructor
        · simpa [List.countP_cons, hres, ResolveResult.isNotFound] using hnu
        · simp [unknownPairs, unknownTI, CassValueType.isUnknown, List.filter_cons, hres,
            ResolveResult.isNotFound, hup]
    · simp at h

theorem pass1_first_unknown (resolve : String → ResolveResult) (t : String)
    (pre : List (String × String)) (name v : String) (post : List (String × String))
    (hpre : ∀ p ∈ pre, ∃ ti, resolve p.1 = ResolveResult.found ti)
    (hname : resolve name = ResolveResult.notFound) :
    upsertPass1 resolve t false none (pre ++ (name, v) :: post) =
      .error ("unknown column \x27" ++ name ++ "\x27 in upsert for table \x27" ++
        t ++ "\x27") := by
  induction pre with
  | nil => simp [upsertPass1, hname]
  | cons p rest ih =>
    obtain ⟨pn, pv⟩ := p
    obtain ⟨ti, hti⟩ := hpre (pn, pv) (by simp)
    have ih2 := ih (fun x hx => hpre x (by simp [hx]))
    simp [upsertPass1, hti, ih2]

theorem upsertBinds_ok (bindErr : CassTypeInfo → String → Option String) (t : String)
    (ps : List (String × String)) (tis : List CassTypeInfo) (bf : Nat)
    (bs : List StmtBind) (bf2 : Nat)
    (h : upsertBinds bindErr t ps tis bf = .ok (bs, bf2))
    (hlen : ps.length = tis.length) :
    bs.length = knownCount tis ∧ bf2 = bf + bs.length ∧
    bs.map StmtBind.pos = List.range' bf bs.length ∧
    ∀ b ∈ bs, b.isScalar = true := by
  induction ps generalizing tis bf bs bf2 with
  | nil =>
    cases tis with
    | cons ti tis2 => simp at hlen
    | nil =>
      simp only [upsertBinds, Except.ok.injEq, Prod.mk.injEq] at h
      obtain ⟨h1, h2⟩ := h
      subst h1; subst h2
      simp [knownCount]
  | cons p rest ih =>
    obtain ⟨name, v⟩ := p
    cases tis with
    | nil => simp at hlen
    | cons ti tis2 =>
      have hlen2 : rest.length = tis2.length := by simpa using hlen
      simp only [upsertBinds] at h
      by_cases hu : ti.cassValueType.isUnknown = true
      · rw [if_pos hu] at h
        obtain ⟨hl, hb, hm, hs⟩ := ih tis2 bf bs bf2 h hlen2
        exact ⟨by simp [knownCount, hu, hl], hb, hm, hs⟩
      · rw [if_neg hu] at h
        rcases hbe : bindErr ti v with _ | e <;> rw [hbe] at h
        · rcases hrec : upsertBinds bindErr t rest tis2 (bf + 1) with e2 | ⟨bs2, bf3⟩ <;>
            rw [hrec] at h
          · simp at h
          · simp only [Except.ok.injEq, Prod.mk.injEq] at h
            obtain ⟨h1, h2⟩ := h
            subst h1; subst h2
            obtain ⟨hl, hb, hm, hs⟩ := ih tis2 (bf + 1) bs2 bf3 hrec hlen2
            have hu2 : ti.cassValueType.isUnknown = false := by
              simpa using hu
            refine ⟨?_, ?_, ?_, ?_⟩
            · simp only [List.length_cons, knownCount, hu2, Bool.false_eq_true, if_false]
              omega
            · simp only [List.length_cons]
              omega
            · simp only [List.map_cons, StmtBind.pos, List.length_cons, List.range'_succ, hm]
            · intro b hb2
              rcases List.mem_cons.mp hb2 with rfl | hmem
              · rfl
              · exact hs b hmem
        · simp at h

theorem processRows_clean (rows : List SelRow) (h : ∀ r ∈ rows, cleanRow r) :
    processRows TclCode.ok rows = (TclCode.ok, rows.length, []) := by
  induction rows with
  | nil => rfl
  | cons r rest ih =>
    obtain ⟨hm, he⟩ := h r (by simp)
    have ih2 := ih (fun x hx => h x (by simp [hx]))
    rcases he with he | he <;> simp [processRows, hm, he, ih2]

theorem processRows_append_clean (rows1 rest : List SelRow) (tr2 : TclCode)
    (n : Nat) (d : List String)
    (h : ∀ r ∈ rows1, cleanRow r)
    (hrest : processRows TclCode.ok rest = (tr2, n, d)) :
    processRows TclCode.ok (rows1 ++ rest) = (tr2, rows1.length + n, d) := by
  induction rows1 with
  | nil => simpa using hrest
  | cons r rs ih =>
    obtain ⟨hm, he⟩ := h r (by simp)
    have ih2 := ih (fun x hx => h x (by simp [hx]))
    rcases he with he | he <;> simp [processRows, hm, he, ih2] <;> omega

theorem selectLoop_clean_pages (pre execs : List ExecResult) (cb f : Nat)
    (d : List String)
    (hpre : ∀ e ∈ pre, cleanPage e) :
    selectLoop (pre ++ execs) TclCode.ok cb f d =
      selectLoop execs TclCode.ok (cb + rowsIn pre) (f + pre.length) d := by
  induction pre generalizing cb f with
  | nil => simp [rowsIn]
  | cons e pre2 ih =>
    have hce := hpre e (by simp)
    have hpre2 : ∀ x ∈ pre2, cleanPage x := fun x hx => hpre x (by simp [hx])
    cases e with
    | execError m => simp [cleanPage] at hce
    | nullResult => simp [cleanPage] at hce
    | page rows hasMore =>
      obtain ⟨hrows, hm⟩ := hce
      subst hm
      have hpr := processRows_clean rows hrows
      simp only [List.cons_append, selectLoop, hpr, and_self, if_true, List.append_nil,
        List.append_eq]
      rw [ih (cb + rows.length) (f + 1) hpre2]
      have h1 : cb + rows.length + rowsIn pre2 = cb + rowsIn (ExecResult.page rows true :: pre2) := by
        simp [rowsIn, pageRows]
        omega
      have h2 : f + 1 + pre2.length = f + (ExecResult.page rows true :: pre2).length := by
        simp
        omega
      rw [h1, h2]

theorem resolveT_wf : SchemaWF resolveT := by
  intro s ti h
  unfold resolveT at h
  by_cases h1 : s = "a"
  · rw [if_pos h1] at h
    cases h
    decide
  · rw [if_neg h1] at h
    by_cases h2 : s = "b"
    · rw [if_pos h2] at h
      cases h
      decide
    · rw [if_neg h2] at h
      cases h

/-- C5: for every key/value list with an odd number of elements,
`casstcl_make_upsert_statement` fails with the even-cardinality argument
error and produces no statement; the failure happens before any schema type
resolution, witnessed by the outcome being independent of the resolver and
the binder. -/
theorem C5_odd_list_argument_error
    (r1 r2 : String → ResolveResult)
    (b1 b2 : CassTypeInfo → String → Option String)
    (t : String) (l : List String) (c1 c2 : Option Nat)
    (m1 m2 : Option String) (d1 d2 i1 i2 : Bool)
    (hodd : l.length % 2 = 1) :
    casstcl_make_upsert_statement r1 b1 t l c1 m1 d1 i1 =
      Except.error "key-value pair list must contain an even number of elements" ∧
    casstcl_make_upsert_statement r1 b1 t l c1 m1 d1 i1 =
      casstcl_make_upsert_statement r2 b2 t l c2 m2 d2 i2 := by
  constructor <;> simp [casstcl_make_upsert_statement, hodd]

/-- Witness for C5 at the concrete odd list `["a", "1", "x"]`. -/
theorem C5_odd_list_argument_error_witness :
    casstcl_make_upsert_statement resolveT bindOkAll "t" ["a", "1", "x"] none none
      false false =
      Except.error "key-value pair list must contain an even number of elements" ∧
    casstcl_make_upsert_statement resolveT bindOkAll "t" ["a", "1", "x"] none none
      false false =
      casstcl_make_upsert_statement (fun _ => ResolveResult.notFound)
        (fun _ _ => some "boom") "t" ["a", "1", "x"] none none false false :=
  C5_odd_list_argument_error resolveT (fun _ => ResolveResult.notFound) bindOkAll
    (fun _ _ => some "boom") "t" ["a", "1", "x"] none none none none false false
    false false (by decide)

/-- C6: with neither drop-unknown nor map-unknown set, an even key/value list
whose first unresolvable column is `name` makes `casstcl_make_upsert_statement`
fail with the unknown-column error naming both the column and the table, and
no statement is produced. -/
theorem C6_unknown_column_error
    (resolve : String → ResolveResult) (bindErr : CassTypeInfo → String → Option String)
    (t : String) (l : List String) (c : Option Nat) (ifne : Bool)
    (pre : List (String × String)) (name v : String) (post : List (String × String))
    (heven : ¬ l.length % 2 = 1)
    (hsplit : toPairs l = pre ++ (name, v) :: post)
    (hpre : ∀ p ∈ pre, ∃ ti, resolve p.1 = ResolveResult.found ti)
    (hname : resolve name = ResolveResult.notFound) :
    casstcl_make_upsert_statement resolve bindErr t l c none false ifne =
      Except.error ("unknown column \x27" ++ name ++ "\x27 in upsert for table \x27" ++
        t ++ "\x27") := by
  unfold casstcl_make_upsert_statement
  rw [if_neg heven, hsplit, pass1_first_unknown resolve t pre name v post hpre hname]

/-- Witness for C6: upserting `["a", "1", "x", "2"]` into table `t` of the
concrete schema, where `x` is not a column. -/
theorem C6_unknown_column_error_witness :
    casstcl_make_upsert_statement resolveT bindOkAll "t" ["a", "1", "x", "2"] none none
      false false =
      Except.error ("unknown column \x27" ++ "x" ++ "\x27 in upsert for table \x27" ++
        "t" ++ "\x27") :=
  C6_unknown_column_error resolveT bindOkAll "t" ["a", "1", "x", "2"] none false
    [("a", "1")] "x" "2" [] (by decide) (by decide)
    (fun p hp => by
      simp only [List.mem_singleton] at hp
      subst hp
      exact ⟨⟨CassValueType.text, CassValueType.unknown, CassValueType.unknown⟩, by decide⟩)
    (by decide)

/-- C1 counterexample: with both `-nocomplain` (drop-unknown) and
`-mapunknown extra` set and the unknown column `x` in the list, the produced
statement drops `x` entirely — no bind holds the pair `("x", "2")`, the query
has no `extra` column and only one placeholder — refuting the claim that
map-unknown takes precedence. -/
theorem C1_counterexample :
    casstcl_make_upsert_statement resolveT bindOkAll "t" ["a", "1", "x", "2"] none
      (some "extra") true false = Except.ok upsC1 ∧
    hasCollPair upsC1 ("x", "2") = false ∧
    upsC1.query = "INSERT INTO t (a) values (?)" ∧
    upsC1.paramCount = 1 :=
  ⟨rfl, rfl, rfl, rfl⟩

/-- C1 (amended): when both drop-unknown and map-unknown are set, drop-unknown
takes precedence — the build behaves exactly as if map-unknown had not been
given, for every schema, binder, table, list and option combination. -/
theorem C1_both_options_drop_wins
    (resolve : String → ResolveResult) (bindErr : CassTypeInfo → String → Option String)
    (t : String) (l : List String) (c : Option Nat) (m : String) (ifne : Bool) :
    casstcl_make_upsert_statement resolve bindErr t l c (some m) true ifne =
      casstcl_make_upsert_statement resolve bindErr t l c none true ifne := by
  unfold casstcl_make_upsert_statement
  by_cases hodd : l.length % 2 = 1
  · rw [if_pos hodd, if_pos hodd]
  · rw [if_neg hodd, if_neg hodd, pass1_drop_eq]
    rcases hpass : upsertPass1 resolve t true none (toPairs l) with e | ⟨cols, tis, nu⟩
    · rfl
    · have hnu : nu = 0 := pass1_drop_nu resolve t none (toPairs l) cols tis nu hpass
      subst hnu
      simp

/-- C8: when an execution reports success but yields a NULL result object
(after any number of clean full pages), `casstcl_select` returns `TCL_ERROR`
with the diagnostic "future has no result", without evaluating the body for
that execution and without any further page fetch. -/
theorem C8_null_result_internal_error (pre rest : List ExecResult)
    (hpre : ∀ e ∈ pre, cleanPage e) :
    casstcl_select (pre ++ ExecResult.nullResult :: rest) =
      { code := TclCode.error, cbCount := rowsIn pre, fetches := pre.length + 1,
        errMsg := some "future has no result", errorInfo := [] } := by
  unfold casstcl_select
  rw [selectLoop_clean_pages pre _ 0 0 [] hpre]
  simp [selectLoop, finishSelect]

/-- Witness for C8: one clean page of one row followed by a NULL result. -/
theorem C8_null_result_internal_error_witness :
    casstcl_select [ExecResult.page [rowOk] true, ExecResult.nullResult] =
      { code := TclCode.error, cbCount := 1, fetches := 2,
        errMsg := some "future has no result", errorInfo := [] } :=
  C8_null_result_internal_error [ExecResult.page [rowOk] true] [] (by decide)

/-- C9: `casstcl_list_columns` skips every schema-metadata entry whose
`column_name` field is not a varchar and continues with the remaining
entries — the listing is identical to the listing of the well-shaped entries
alone, and without types it succeeds with exactly the well-shaped names. -/
theorem C9_list_columns_skips_nonvarchar (v2t : String → Except String String)
    (it : Bool) (cols : List ColumnMeta) :
    casstcl_list_columns v2t it cols =
      casstcl_list_columns v2t it (cols.filter fun c => c.nameType.isVarcharType) ∧
    casstcl_list_columns v2t false cols =
      (TclCode.ok,
        (cols.filter fun c => c.nameType.isVarcharType).map ColumnMeta.name) := by
  constructor
  · induction cols with
    | nil => rfl
    | cons c rest ih =>
      rcases hv : c.nameType.isVarcharType with _ | _
      · simp [casstcl_list_columns, hv, List.filter_cons, ih]
      · simp only [casstcl_list_columns, hv, List.filter_cons, if_true, Bool.true_eq_false,
          if_false]
        rw [ih]
  · induction cols with
    | nil => rfl
    | cons c rest ih =>
      rcases hv : c.nameType.isVarcharType with _ | _
      · simp [casstcl_list_columns, hv, List.filter_cons, ih]
      · simp only [casstcl_list_columns, hv, List.filter_cons, if_true, Bool.true_eq_false,
          if_false, Bool.false_eq_true, List.map_cons]
        rw [ih]

/-- C2: when the per-row body returns `TCL_BREAK` (SkipRest) on some row —
after any number of clean full pages and clean earlier rows on the current
page — `casstcl_select` evaluates the body exactly once for that row and never
again, issues no further page fetch regardless of remaining pages, and
returns `TCL_OK`. -/
theorem C2_skiprest_stops (pre : List ExecResult) (rows1 rows2 : List SelRow)
    (brkRow : SelRow) (hasMore : Bool) (rest : List ExecResult)
    (hpre : ∀ e ∈ pre, cleanPage e)
    (hrows1 : ∀ r ∈ rows1, cleanRow r)
    (hbrk : brkRow.eval = EvalOutcome.brk) :
    casstcl_select (pre ++ ExecResult.page (rows1 ++ brkRow :: rows2) hasMore :: rest) =
      { code := TclCode.ok, cbCount := rowsIn pre + (rows1.length + 1),
        fetches := pre.length + 1, errMsg := none, errorInfo := [] } := by
  unfold casstcl_select
  rw [selectLoop_clean_pages pre _ 0 0 [] hpre]
  have h1 : processRows TclCode.ok (brkRow :: rows2) = (TclCode.brk, 1, []) := by
    simp [processRows, hbrk]
  have h2 := processRows_append_clean rows1 (brkRow :: rows2) TclCode.brk 1 [] hrows1 h1
  simp only [selectLoop, h2]
  rw [if_neg (by simp)]
  simp [finishSelect]

/-- Witness for C2: break on row 2 of the second of three pages; the body
runs 3 times, only 2 fetches happen, and the outcome is `TCL_OK`. -/
theorem C2_skiprest_stops_witness :
    casstcl_select [ExecResult.page [rowOk] true,
      ExecResult.page [rowOk, rowBrk, rowOk] true,
      ExecResult.page [rowOk] false] =
      { code := TclCode.ok, cbCount := 3, fetches := 2,
        errMsg := none, errorInfo := [] } :=
  C2_skiprest_stops [ExecResult.page [rowOk] true] [rowOk] [rowOk] rowBrk true
    [ExecResult.page [rowOk] false] (by decide) (by decide) (by decide)

/-- C7 counterexample: the body aborts with `TCL_ERROR` on the third row
(three body evaluations), yet the only decoration appended is the select-body
script-line message for line 1, a string that does not even contain the digit
of the 1-based row index 3 — refuting the claim that the error is decorated
with the index of the row being processed. -/
theorem C7_counterexample :
    casstcl_select [ExecResult.page [rowOk, rowOk, rowErr1] false] =
      { code := TclCode.error, cbCount := 3, fetches := 1,
        errMsg := none, errorInfo := [bodyLineMsg 1] } ∧
    containsStr (bodyLineMsg 1) "3" = false :=
  ⟨rfl, rfl⟩

/-- C7 (amended): when the per-row body itself fails (`TCL_ERROR`) on some
row, `casstcl_select` stops immediately — no further body evaluation and no
further page fetch — and propagates `TCL_ERROR` with the error info decorated
with the script line of the select body where the failure occurred (not with
the row index). -/
theorem C7_abort_decorated_with_body_line (pre : List ExecResult)
    (rows1 rows2 : List SelRow) (errRow : SelRow) (line : Nat) (hasMore : Bool)
    (rest : List ExecResult)
    (hpre : ∀ e ∈ pre, cleanPage e)
    (hrows1 : ∀ r ∈ rows1, cleanRow r)
    (herr : errRow.eval = EvalOutcome.err line) :
    casstcl_select (pre ++ ExecResult.page (rows1 ++ errRow :: rows2) hasMore :: rest) =
      { code := TclCode.error, cbCount := rowsIn pre + (rows1.length + 1),
        fetches := pre.length + 1, errMsg := none,
        errorInfo := [bodyLineMsg line] } := by
  unfold casstcl_select
  rw [selectLoop_clean_pages pre _ 0 0 [] hpre]
  have h1 : processRows TclCode.ok (errRow :: rows2) = (TclCode.error, 1, [bodyLineMsg line]) := by
    simp [processRows, herr]
  have h2 := processRows_append_clean rows1 (errRow :: rows2) TclCode.error 1
    [bodyLineMsg line] hrows1 h1
  simp only [selectLoop, h2]
  rw [if_neg (by simp)]
  simp [finishSelect]

/-- Witness for the amended C7: abort at script line 7 on row 2 of page 2. -/
theorem C7_abort_decorated_with_body_line_witness :
    casstcl_select [ExecResult.page [rowOk] true,
      ExecResult.page [rowOk, SelRow.mk true (EvalOutcome.err 7)] true,
      ExecResult.page [rowOk] false] =
      { code := TclCode.error, cbCount := 3, fetches := 2,
        errMsg := none, errorInfo := [bodyLineMsg 7] } :=
  C7_abort_decorated_with_body_line [ExecResult.page [rowOk] true] [rowOk] []
    (SelRow.mk true (EvalOutcome.err 7)) 7 true [ExecResult.page [rowOk] false]
    (by decide) (by decide) (by decide)

/-- C10: for every statement `casstcl_make_upsert_statement` produces (under
the resolver contract that `found` types are never the `Unknown` sentinel),
the bind positions are exactly `0, 1, ..., nFields-1` in order — each
recognized column is bound at the position equal to the number of recognized
columns preceding it, the synthetic map bind (when present) lands last at
`nFields - 1`, every bind satisfies `bindField < nFields` (the in-code
assertions), and each placeholder is bound exactly once. -/
theorem C10_bind_positions
    (resolve : String → ResolveResult) (bindErr : CassTypeInfo → String → Option String)
    (t : String) (l : List String) (c : Option Nat) (mu : Option String)
    (d ifne : Bool) (stmt : UpsertStatement)
    (hwf : SchemaWF resolve)
    (hok : casstcl_make_upsert_statement resolve bindErr t l c mu d ifne = Except.ok stmt) :
    stmt.binds.map StmtBind.pos = List.range stmt.paramCount ∧
    stmt.binds.length = stmt.paramCount ∧
    ∀ b ∈ stmt.binds, b.pos < stmt.paramCount := by
  unfold casstcl_make_upsert_statement at hok
  by_cases hodd : l.length % 2 = 1
  · rw [if_pos hodd] at hok
    exact absurd hok (by simp)
  · rw [if_neg hodd] at hok
    rcases hpass : upsertPass1 resolve t d mu (toPairs l) with e | ⟨cols, tis, nu⟩
    · rw [hpass] at hok
      exact absurd hok (by simp)
    · simp only [hpass] at hok
      rcases hbind : upsertBinds bindErr t (toPairs l) tis 0 with e | ⟨bs, bf2⟩
      · rw [hbind] at hok
        exact absurd hok (by simp)
      · simp only [hbind] at hok
        obtain ⟨hlen, hkc⟩ := pass1_shape resolve t d mu (toPairs l) cols tis nu hwf hpass
        obtain ⟨hbl, hbf, hbm, hbsc⟩ :=
          upsertBinds_ok bindErr t (toPairs l) tis 0 bs bf2 hbind hlen.symm
        have hbs : bs.length = cols.length := by rw [hbl, hkc]
        by_cases hnu : 0 < nu
        · simp only [hnu, if_true, Except.ok.injEq] at hok
          subst hok
          have hmap : (bs ++ [StmtBind.coll bf2 CassValueType.text
              (unknownPairs (toPairs l) tis)]).map StmtBind.pos =
              List.range (cols.length + 1) := by
            simp only [List.map_append, hbm, List.map_cons, List.map_nil, StmtBind.pos]
            rw [hbf, hbs]
            rw [List.range_succ, List.range_eq_range']
            simp
          refine ⟨by simpa using hmap, by simp [hbs], ?_⟩
          intro b hbmem
          have hmem2 : b.pos ∈ List.range (cols.length + 1) := by
            rw [← hmap]
            exact List.mem_map_of_mem StmtBind.pos hbmem
          simpa using List.mem_range.mp hmem2
        · simp only [hnu, if_false, Except.ok.injEq] at hok
          subst hok
          have hmap : bs.map StmtBind.pos = List.range cols.length := by
            rw [hbm, hbs, List.range_eq_range']
          refine ⟨by simpa using hmap, by simpa using hbs, ?_⟩
          intro b hbmem
          have hmem2 : b.pos ∈ List.range cols.length := by
            rw [← hmap]
            exact List.mem_map_of_mem StmtBind.pos hbmem
          simpa using List.mem_range.mp hmem2

/-- Witness for C10: the upsert of `["a", "1", "x", "2"]` with
`-mapunknown extra`, whose statement has the scalar bind at 0 and the map
bind at 1 = nFields - 1. -/
theorem C10_bind_positions_witness :
    (UpsertStatement.mk "INSERT INTO t (a,extra) values (?,?)" 2 none
      [StmtBind.scalar 0
        (CassTypeInfo.mk CassValueType.text CassValueType.unknown CassValueType.unknown) "1",
       StmtBind.coll 1 CassValueType.text [("x", "2")]]).binds.map StmtBind.pos =
      List.range 2 ∧
    (UpsertStatement.mk "INSERT INTO t (a,extra) values (?,?)" 2 none
      [StmtBind.scalar 0
        (CassTypeInfo.mk CassValueType.text CassValueType.unknown CassValueType.unknown) "1",
       StmtBind.coll 1 CassValueType.text [("x", "2")]]).binds.length = 2 ∧
    ∀ b ∈ (UpsertStatement.mk "INSERT INTO t (a,extra) values (?,?)" 2 none
      [StmtBind.scalar 0
        (CassTypeInfo.mk CassValueType.text CassValueType.unknown CassValueType.unknown) "1",
       StmtBind.coll 1 CassValueType.text [("x", "2")]]).binds, b.pos < 2 :=
  C10_bind_positions resolveT bindOkAll "t" ["a", "1", "x", "2"] none (some "extra")
    false false _ resolveT_wf rfl

/-- C3: for every key/value list in which every column name resolves in the
schema (under the resolver contract), a produced statement has parameter
count equal to the number of recognized columns (= the number of pairs), its
query contains exactly that many `?` placeholders (when neither the table
name nor the column names contain `?`), and exactly that many binds were
performed. -/
theorem C3_placeholder_count
    (resolve : String → ResolveResult) (bindErr : CassTypeInfo → String → Option String)
    (t : String) (l : List String) (c : Option Nat) (mu : Option String)
    (d ifne : Bool) (stmt : UpsertStatement)
    (hwf : SchemaWF resolve)
    (hknown : ∀ p ∈ toPairs l, ∃ ti, resolve p.1 = ResolveResult.found ti)
    (hqt : qFree t = true)
    (hqn : ∀ p ∈ toPairs l, qFree p.1 = true)
    (hok : casstcl_make_upsert_statement resolve bindErr t l c mu d ifne = Except.ok stmt) :
    stmt.paramCount = (toPairs l).length ∧
    countQ stmt.query = stmt.paramCount ∧
    stmt.binds.length = stmt.paramCount := by
  unfold casstcl_make_upsert_statement at hok
  by_cases hodd : l.length % 2 = 1
  · rw [if_pos hodd] at hok
    exact absurd hok (by simp)
  · rw [if_neg hodd] at hok
    obtain ⟨tis, hpass, hlen, hkc⟩ :=
      pass1_all_known resolve t d mu (toPairs l) hwf hknown
    simp only [hpass] at hok
    rcases hbind : upsertBinds bindErr t (toPairs l) tis 0 with e | ⟨bs, bf2⟩
    · rw [hbind] at hok
      exact absurd hok (by simp)
    · simp only [hbind] at hok
      obtain ⟨hbl, _, _, _⟩ :=
        upsertBinds_ok bindErr t (toPairs l) tis 0 bs bf2 hbind hlen.symm
      simp only [Nat.lt_irrefl, if_false, Except.ok.injEq] at hok
      subst hok
      have hcols0 : ∀ s ∈ (toPairs l).map Prod.fst, countQ s = 0 := by
        intro s hs
        obtain ⟨p, hp, rfl⟩ := List.mem_map.mp hs
        exact countQ_of_qFree (hqn p hp)
      have hjc : countQ (joinComma ((toPairs l).map Prod.fst ++ [])) = 0 := by
        rw [List.append_nil]
        exact countQ_joinComma hcols0
      have hsuffix : countQ (if ifne = true then ") IF NOT EXISTS" else ")") = 0 := by
        cases ifne <;> decide
      refine ⟨by simp, ?_, ?_⟩
      · simp only
        rw [countQ_append, countQ_append, countQ_append, countQ_append, countQ_append,
          countQ_append, hjc, hsuffix, countQ_placeholders, countQ_of_qFree hqt]
        have h1 : countQ "INSERT INTO " = 0 := by decide
        have h2 : countQ " (" = 0 := by decide
        have h3 : countQ ") values (" = 0 := by decide
        rw [h1, h2, h3]
        simp
      · simp only
        rw [hbl, hkc]
        simp

/-- Witness for C3: upserting `["a", "1", "b", "2"]` (both columns known)
yields 2 placeholders, 2 parameters and 2 binds. -/
theorem C3_placeholder_count_witness :
    (UpsertStatement.mk "INSERT INTO t (a,b) values (?,?)" 2 none
      [StmtBind.scalar 0
        (CassTypeInfo.mk CassValueType.text CassValueType.unknown CassValueType.unknown) "1",
       StmtBind.scalar 1
        (CassTypeInfo.mk CassValueType.varchar CassValueType.unknown CassValueType.unknown)
        "2"]).paramCount = (toPairs ["a", "1", "b", "2"]).length ∧
    countQ (UpsertStatement.mk "INSERT INTO t (a,b) values (?,?)" 2 none
      [StmtBind.scalar 0
        (CassTypeInfo.mk CassValueType.text CassValueType.unknown CassValueType.unknown) "1",
       StmtBind.scalar 1
        (CassTypeInfo.mk CassValueType.varchar CassValueType.unknown CassValueType.unknown)
        "2"]).query =
      (UpsertStatement.mk "INSERT INTO t (a,b) values (?,?)" 2 none
      [StmtBind.scalar 0
        (CassTypeInfo.mk CassValueType.text CassValueType.unknown CassValueType.unknown) "1",
       StmtBind.scalar 1
        (CassTypeInfo.mk CassValueType.varchar CassValueType.unknown CassValueType.unknown)
        "2"]).paramCount ∧
    (UpsertStatement.mk "INSERT INTO t (a,b) values (?,?)" 2 none
      [StmtBind.scalar 0
        (CassTypeInfo.mk CassValueType.text CassValueType.unknown CassValueType.unknown) "1",
       StmtBind.scalar 1
        (CassTypeInfo.mk CassValueType.varchar CassValueType.unknown CassValueType.unknown)
        "2"]).binds.length =
      (UpsertStatement.mk "INSERT INTO t (a,b) values (?,?)" 2 none
      [StmtBind.scalar 0
        (CassTypeInfo.mk CassValueType.text CassValueType.unknown CassValueType.unknown) "1",
       StmtBind.scalar 1
        (CassTypeInfo.mk CassValueType.varchar CassValueType.unknown CassValueType.unknown)
        "2"]).paramCount :=
  C3_placeholder_count resolveT bindOkAll "t" ["a", "1", "b", "2"] none none false false _
    resolveT_wf
    (by
      intro p hp
      have hps : toPairs ["a", "1", "b", "2"] = [("a", "1"), ("b", "2")] := rfl
      rw [hps] at hp
      simp only [List.mem_cons, List.not_mem_nil, or_false] at hp
      rcases hp with rfl | rfl
      · exact ⟨_, rfl⟩
      · exact ⟨_, rfl⟩)
    (by decide)
    (by
      intro p hp
      have hps : toPairs ["a", "1", "b", "2"] = [("a", "1"), ("b", "2")] := rfl
      rw [hps] at hp
      simp only [List.mem_cons, List.not_mem_nil, or_false] at hp
      rcases hp with rfl | rfl
      · decide
      · decide)
    rfl

/-- C4: with map-unknown set (and drop-unknown unset) and at least one
unrecognized column, every produced statement carries exactly one synthetic
map column: the query appends the map column name last in the column list
with one extra placeholder, and the binds are scalar binds followed by
exactly one map-collection bind at the final position `nFields - 1` whose
text/text pairs are exactly the unrecognized name/value pairs in list
order. -/
theorem C4_map_unknown_aggregates
    (resolve : String → ResolveResult) (bindErr : CassTypeInfo → String → Option String)
    (t : String) (l : List String) (c : Option Nat) (m : String) (ifne : Bool)
    (stmt : UpsertStatement)
    (hwf : SchemaWF resolve)
    (hunk : ∃ p ∈ toPairs l, resolve p.1 = ResolveResult.notFound)
    (hok : casstcl_make_upsert_statement resolve bindErr t l c (some m) false ifne =
      Except.ok stmt) :
    ∃ cols tis nu bs,
      upsertPass1 resolve t false (some m) (toPairs l) = Except.ok (cols, tis, nu) ∧
      0 < nu ∧
      stmt.paramCount = cols.length + 1 ∧
      stmt.query = "INSERT INTO " ++ t ++ " (" ++ joinComma (cols ++ [m]) ++
        ") values (" ++ placeholders (cols.length + 1) ++
        (if ifne = true then ") IF NOT EXISTS" else ")") ∧
      stmt.binds = bs ++ [StmtBind.coll cols.length CassValueType.text
        ((toPairs l).filter fun p => (resolve p.1).isNotFound)] ∧
      ∀ b ∈ bs, b.isScalar = true := by
  unfold casstcl_make_upsert_statement at hok
  by_cases hodd : l.length % 2 = 1
  · rw [if_pos hodd] at hok
    exact absurd hok (by simp)
  · rw [if_neg hodd] at hok
    rcases hpass : upsertPass1 resolve t false (some m) (toPairs l) with e | ⟨cols, tis, nu⟩
    · rw [hpass] at hok
      exact absurd hok (by simp)
    · simp only [hpass] at hok
      obtain ⟨hnu0, hup⟩ := pass1_map_unknowns resolve t m (toPairs l) cols tis nu hwf hpass
      have hnu : 0 < nu := by
        rw [hnu0]
        refine List.countP_pos_iff.mpr ?_
        obtain ⟨p, hp, hres⟩ := hunk
        exact ⟨p, hp, by rw [hres]; rfl⟩
      rcases hbind : upsertBinds bindErr t (toPairs l) tis 0 with e | ⟨bs, bf2⟩
      · rw [hbind] at hok
        exact absurd hok (by simp)
      · simp only [hbind] at hok
        simp only [hnu, if_true, Except.ok.injEq] at hok
        subst hok
        obtain ⟨hlen, hkc⟩ :=
          pass1_shape resolve t false (some m) (toPairs l) cols tis nu hwf hpass
        obtain ⟨hbl, hbf, _, hbsc⟩ :=
          upsertBinds_ok bindErr t (toPairs l) tis 0 bs bf2 hbind hlen.symm
        have hbs : bf2 = cols.length := by
          rw [hbf, hbl, hkc]
          omega
        refine ⟨cols, tis, nu, bs, rfl, hnu, ?_, ?_, ?_, hbsc⟩
        · simp [hnu]
        · simp [hnu]
        · simp only
          rw [hbs, hup]

/-- Witness for C4: mapping the unknown column `x` of `["a", "1", "x", "2"]`
into `extra` puts the single text/text map bind `[("x", "2")]` at the last
position of the produced statement. -/
theorem C4_map_unknown_aggregates_witness :
    ∃ cols tis nu bs,
      upsertPass1 resolveT "t" false (some "extra") (toPairs ["a", "1", "x", "2"]) =
        Except.ok (cols, tis, nu) ∧
      0 < nu ∧
      (UpsertStatement.mk "INSERT INTO t (a,extra) values (?,?)" 2 none
        [StmtBind.scalar 0
          (CassTypeInfo.mk CassValueType.text CassValueType.unknown CassValueType.unknown)
          "1",
         StmtBind.coll 1 CassValueType.text [("x", "2")]]).paramCount = cols.length + 1 ∧
      (UpsertStatement.mk "INSERT INTO t (a,extra) values (?,?)" 2 none
        [StmtBind.scalar 0
          (CassTypeInfo.mk CassValueType.text CassValueType.unknown CassValueType.unknown)
          "1",
         StmtBind.coll 1 CassValueType.text [("x", "2")]]).query =
        "INSERT INTO " ++ "t" ++ " (" ++ joinComma (cols ++ ["extra"]) ++
        ") values (" ++ placeholders (cols.length + 1) ++
        (if false = true then ") IF NOT EXISTS" else ")") ∧
      (UpsertStatement.mk "INSERT INTO t (a,extra) values (?,?)" 2 none
        [StmtBind.scalar 0
          (CassTypeInfo.mk CassValueType.text CassValueType.unknown CassValueType.unknown)
          "1",
         StmtBind.coll 1 CassValueType.text [("x", "2")]]).binds =
        bs ++ [StmtBind.coll cols.length CassValueType.text
          ((toPairs ["a", "1", "x", "2"]).filter fun p => (resolveT p.1).isNotFound)] ∧
      ∀ b ∈ bs, b.isScalar = true :=
  C4_map_unknown_aggregates resolveT bindOkAll "t" ["a", "1", "x", "2"] none "extra" false _
    resolveT_wf ⟨("x", "2"), by decide, by decide⟩ rfl
